import Mathlib

/-!
# Verification of the Bengali voter-register normalization and segmentation core

Shallow embedding of the text-normalization pipeline and the record
segmenter of the `Python-Script` repository.  Strings are modelled as
`List Char` of Unicode scalar values; Python regular-expression scans are
embedded as explicit recursive scanners following the backtracking order
of the `re` engine (greedy quantifiers try longest first, lazy quantifiers
shortest first, scan positions advance left to right, replacements resume
after the matched span of the original string).
-/

set_option maxRecDepth 100000
set_option maxHeartbeats 1000000
set_option linter.unusedVariables false
set_option linter.unnecessarySeqFocus false

/-- Strings are lists of Unicode scalar values. -/
abbrev Str := List Char

/-- The character list of a string literal. -/
def S (s : String) : Str := s.data

/-- Python `\s` / `str.strip` whitespace, restricted to the whitespace
codepoints that can occur in this corpus (ASCII whitespace, the C1
next-line and no-break space); the exotic Unicode space blocks never
appear in the register text. -/
def isPySpace (c : Char) : Bool :=
  c = ' ' || c = '\t' || c = '\n' || c = '\r' || c = '\x0b' || c = '\x0c' ||
  c = '\x1c' || c = '\x1d' || c = '\x1e' || c = '\x1f' || c = '\x85' || c = '\xa0'

/-- Bengali digit `[০-৯]` (U+09E6 .. U+09EF). -/
def isBDigit (c : Char) : Bool :=
  0x9E6 ≤ c.toNat && c.toNat ≤ 0x9EF

/-- Bengali consonant-class codepoint `[ক-হ]` (U+0995 .. U+09B9), the
codepoint range the source regexes use. -/
def isCons (c : Char) : Bool :=
  0x995 ≤ c.toNat && c.toNat ≤ 0x9B9

/-- Python `$`: the match position is at the end of the string or just
before a single trailing newline. -/
def pyEnd (l : Str) : Bool :=
  l = [] || l = ['\n']

/-- Python `str.lstrip` on our whitespace class. -/
def lstripWs (l : Str) : Str := l.dropWhile isPySpace

/-- Drop trailing characters satisfying `p` (right-hand strip). -/
def dropTrailing (p : Char → Bool) : Str → Str
  | [] => []
  | a :: rest =>
    match dropTrailing p rest with
    | [] => if p a then [] else [a]
    | r => a :: r

/-- Python `str.strip()` on our whitespace class. -/
def pyStrip (l : Str) : Str := dropTrailing isPySpace (l.dropWhile isPySpace)

/-- Python `needle in hay` substring test. -/
def occursIn (needle : Str) : Str → Bool
  | [] => needle.isEmpty
  | a :: rest => needle.isPrefixOf (a :: rest) || occursIn needle rest

/-- Python `str.replace pat rep`: replace every non-overlapping occurrence,
scanning left to right and resuming after the replaced span.  The fuel
argument only bounds the recursion; `l.length` steps always suffice. -/
def replaceAllF (pat rep : Str) : Nat → Str → Str
  | 0, l => l
  | _ + 1, [] => []
  | fuel + 1, a :: rest =>
    if pat ≠ [] && pat.isPrefixOf (a :: rest) then
      rep ++ replaceAllF pat rep fuel ((a :: rest).drop pat.length)
    else
      a :: replaceAllF pat rep fuel rest

/-- Python `str.replace pat rep`. -/
def replaceAll (pat rep l : Str) : Str := replaceAllF pat rep l.length l

/-- Apply an ordered substring-correction table by repeated exact
replacement, one pair at a time in table order. -/
def applyTable (table : List (Str × Str)) (s : Str) : Str :=
  table.foldl (fun t p => replaceAll p.1 p.2 t) s

/-- Python `str.split sep` (non-empty separator): split on every
non-overlapping occurrence, scanning left to right (fuel-bounded;
`l.length` steps always suffice). -/
def splitOnAux (sep : Str) : Nat → Str → Str → List Str
  | 0, acc, l => [acc ++ l]
  | _ + 1, acc, [] => [acc]
  | fuel + 1, acc, a :: rest =>
    if sep ≠ [] && sep.isPrefixOf (a :: rest) then
      acc :: splitOnAux sep fuel [] ((a :: rest).drop sep.length)
    else
      splitOnAux sep fuel (acc ++ [a]) rest

/-- Python `text.split(sep)`. -/
def splitOn (sep : Str) (l : Str) : List Str := splitOnAux sep l.length [] l

theorem dropWhile_length_le (p : Char → Bool) (l : Str) :
    (l.dropWhile p).length ≤ l.length := by
  induction l with
  | nil => simp [List.dropWhile]
  | cons a rest ih =>
    by_cases h : p a <;> simp [List.dropWhile, h] <;> omega

/-- `re.split(kw + r'\s*', line)` for a literal keyword `kw`: like
`splitOn`, but each separator also consumes the whitespace run following
the keyword (fuel-bounded; `l.length` steps always suffice). -/
def splitKwWsAux (kw : Str) : Nat → Str → Str → List Str
  | 0, acc, l => [acc ++ l]
  | _ + 1, acc, [] => [acc]
  | fuel + 1, acc, a :: rest =>
    if kw ≠ [] && kw.isPrefixOf (a :: rest) then
      acc :: splitKwWsAux kw fuel [] (((a :: rest).drop kw.length).dropWhile isPySpace)
    else
      splitKwWsAux kw fuel (acc ++ [a]) rest

/-- `re.split` by a keyword plus trailing whitespace. -/
def splitKwWs (kw : Str) (l : Str) : List Str := splitKwWsAux kw l.length [] l

/-! ## Whitespace-normalization stage (tail of `bengali_text_utils.clean_text`) -/

/-- `re.sub(r'\r\n', '\n', text)`. -/
def subCRLF : Str → Str
  | [] => []
  | [a] => [a]
  | a :: b :: rest =>
    if a = '\r' && b = '\n' then '\n' :: subCRLF rest
    else a :: subCRLF (b :: rest)

/-- `re.sub(r'\r', '\n', text)`. -/
def crToLf (l : Str) : Str := l.map fun c => if c = '\r' then '\n' else c

/-- One pass of run collapsing: `prev` records whether the previous
character of the input was `c`. -/
def collapseGo (c : Char) (prev : Bool) : Str → Str
  | [] => []
  | a :: rest =>
    if a = c then
      (if prev then [] else [c]) ++ collapseGo c true rest
    else a :: collapseGo c false rest

/-- `re.sub(c+, c, text)`: collapse every run of the character `c` to a
single occurrence (used for `\n+` and for `' +'`). -/
def collapseRuns (c : Char) (l : Str) : Str := collapseGo c false l

/-- The whitespace-normalization stage of `clean_text`
(`structure_voter_data` sources, `bengali_text_utils.py` lines 124-129):
`\r\n → \n`, `\r → \n`, collapse newline runs, collapse space runs,
then strip. -/
def normalize_whitespace (s : Str) : Str :=
  pyStrip (collapseRuns ' ' (collapseRuns '\n' (crToLf (subCRLF s))))

/-! ## The rest of `clean_text` (`bengali_text_utils.py`) -/

/-- Control codepoints removed by `clean_text`:
`[\x00-\x08\x0b\x0c\x0e-\x1f\x7f-\x9f]`. -/
def isCtrl (c : Char) : Bool :=
  c.toNat ≤ 0x08 || c = '\x0b' || c = '\x0c' ||
  (0x0e ≤ c.toNat && c.toNat ≤ 0x1f) || (0x7f ≤ c.toNat && c.toNat ≤ 0x9f)

/-- Punctuation class `[।,;:!?]` of `_fix_spacing`. -/
def isPunctB (c : Char) : Bool :=
  c = '।' || c = ',' || c = ';' || c = ':' || c = '!' || c = '?'

/-- `re.sub(r'\s+([।,;:!?])', r'\1', text)`: a whitespace run directly
followed by a punctuation mark is deleted. -/
def subWsPunctF : Nat → Str → Str
  | 0, l => l
  | _ + 1, [] => []
  | fuel + 1, a :: rest =>
    if isPySpace a then
      match rest.dropWhile isPySpace with
      | p :: rest₂ =>
        if isPunctB p then p :: subWsPunctF fuel rest₂
        else (a :: rest.takeWhile isPySpace) ++ subWsPunctF fuel (rest.dropWhile isPySpace)
      | [] => a :: rest
    else a :: subWsPunctF fuel rest

/-- `re.sub(r'\s+([।,;:!?])', r'\1', text)`. -/
def subWsPunct (l : Str) : Str := subWsPunctF l.length l

/-- `re.sub(r'([।,;:!?])\s+', r'\1 ', text)`: a punctuation mark followed
by a whitespace run keeps a single space. -/
def subPunctWsF : Nat → Str → Str
  | 0, l => l
  | _ + 1, [] => []
  | fuel + 1, a :: rest =>
    if isPunctB a && (match rest with | b :: _ => isPySpace b | [] => false) then
      a :: ' ' :: subPunctWsF fuel (rest.dropWhile isPySpace)
    else a :: subPunctWsF fuel rest

/-- `re.sub(r'([।,;:!?])\s+', r'\1 ', text)`. -/
def subPunctWs (l : Str) : Str := subPunctWsF l.length l

/-- `BengaliTextProcessor._fix_spacing`. -/
def fix_spacing (t : Str) : Str :=
  pyStrip (subPunctWs (subWsPunct (collapseRuns ' ' t)))

/-- `BengaliTextProcessor.fix_bijoy_text`: the Bijoy mapping table is
empty and `_fix_broken_words` is the identity, so only the guard and
`_fix_spacing` act. -/
def fix_bijoy_text (t : Str) : Str :=
  if t.isEmpty then [] else fix_spacing t

/-- `BengaliTextProcessor.clean_text`, on an optional input (`none`
models Python `None`): guard, control stripping, Bijoy/spacing fixes,
then whitespace normalization. -/
def clean_text : Option Str → Str
  | none => []
  | some s =>
    if s.isEmpty then []
    else normalize_whitespace (fix_bijoy_text (s.filter fun c => !isCtrl c))

/-! ## `fix_double_characters.py` -/

/-- The explicit double-character correction table of
`fix_double_characters` (lines 27-45, duplicates kept in table order). -/
def double_chars_table : List (Str × Str) :=
  [(S "মমো", S "মো"), (S "হহো", S "হো"), (S "ররো", S "রো"), (S "গগো", S "গো"),
   (S "ককো", S "কো"), (S "মমী", S "মী"), (S "মমোঃ", S "মোঃ"), (S "মমোছাঃ", S "মোছাঃ"),
   (S "মমোসাঃ", S "মোসাঃ"), (S "মমোস্ত", S "মোস্ত"), (S "মমোত", S "মোত"),
   (S "মমোজ", S "মোজ"), (S "মমোল", S "মোল"), (S "হহো", S "হো"), (S "ররো", S "রো"),
   (S "গগো", S "গো"), (S "ককো", S "কো")]

/-- The consonant list `'কখগঘঙচছজঝঞটঠডঢণতথদধনপফবভমযরলশষসহ'` the generic
collapse loop iterates over. -/
def bengali_consonants : Str := S "কখগঘঙচছজঝঞটঠডঢণতথদধনপফবভমযরলশষসহ"

/-- `re.sub(f'({c}){c}(?!{c})', r'\1', text)`: collapse an exactly-double
occurrence of the consonant `c` (negative lookahead blocks triples),
scanning left to right and resuming after each match. -/
def fixDoubleOnce (c : Char) : Str → Str
  | a :: b :: rest =>
    if a = c && b = c && !(rest.head? == some c) then c :: fixDoubleOnce c rest
    else a :: fixDoubleOnce c (b :: rest)
  | l => l

/-- `fix_double_characters` (`fix_double_characters.py` lines 18-59):
guard, the literal table, then the per-consonant generic collapse. -/
def fix_double_characters (s : Str) : Str :=
  if s.isEmpty then s
  else bengali_consonants.foldl (fun t c => fixDoubleOnce c t)
    (applyTable double_chars_table s)

example : fix_double_characters (S "ককক") = S "কক" := by decide
example : fix_double_characters (S "কক") = S "ক" := by decide
example : fix_double_characters (S "মমোহাম্মদ") = S "মোহাম্মদ" := by decide
example : fix_double_characters (S "ককো") = S "কো" := by decide
example : fix_double_characters (S "কককককো") = S "ককো" := by decide

/-! ## `fix_bengali_encoding.py` -/

/-- The literal ই-কার position table of
`fix_bengali_encoding.fix_ikar_position` (lines 31-69, duplicates kept). -/
def enc_fixes_table : List (Str × Str) :=
  [(S "িনম্মী", S "নিম্মী"), (S "িনশরাত", S "নিশরাত"), (S "িনলুফা", S "নিলুফা"),
   (S "িনলুফার", S "নিলুফার"), (S "িনজাম", S "নিজাম"), (S "িনেয়াগী", S "নেয়াগী"),
   (S "িনেয়াগী", S "নেয়াগী"), (S "িনলুফা", S "নিলুফা"), (S "িনলুফার", S "নিলুফার"),
   (S "িনরংিক", S "নিরংিক"), (S "িনলুফার", S "নিলুফার"), (S "িনজাম", S "নিজাম"),
   (S "িনলুফা", S "নিলুফা"), (S "িনলুফার", S "নিলুফার"), (S "িদনার", S "দিনার"),
   (S "িদলরুবা", S "দিলরুবা"), (S "িদলরুবা", S "দিলরুবা"), (S "িমথুন", S "মিথুন"),
   (S "িনশরাত", S "নিশরাত"), (S "িনম্মী", S "নিম্মী"), (S "িনশরাত", S "নিশরাত"),
   (S "িনলুফা", S "নিলুফা"), (S "িনলুফার", S "নিলুফার"), (S "িনজাম", S "নিজাম"),
   (S "িনেয়াগী", S "নেয়াগী"), (S "িনেয়াগী", S "নেয়াগী"), (S "িনরংিক", S "নিরংিক"),
   (S "িনলুফার", S "নিলুফার"), (S "িনজাম", S "নিজাম"), (S "িনলুফা", S "নিলুফা"),
   (S "িনলুফার", S "নিলুফার")]

/-- `re.sub(r'(^|\s)(িন)([ক-হ])', r'\1নি\3', text)`: swap a `িন` that
begins the string or follows whitespace when a consonant follows. -/
def subInStart (atStart : Bool) : Str → Str
  | 'ি' :: 'ন' :: c :: rest =>
    if atStart && isCons c then 'ন' :: 'ি' :: c :: subInStart false rest
    else 'ি' :: subInStart false ('ন' :: c :: rest)
  | a :: 'ি' :: 'ন' :: c :: rest =>
    if isPySpace a && isCons c then a :: 'ন' :: 'ি' :: c :: subInStart false rest
    else a :: subInStart false ('ি' :: 'ন' :: c :: rest)
  | a :: rest => a :: subInStart false rest
  | [] => []

/-- `fix_bengali_encoding.fix_ikar_position` on an optional input
(`none` models Python `None`, which the guard returns unchanged). -/
def fix_ikar_position_enc : Option Str → Option Str
  | none => none
  | some s =>
    if s.isEmpty then some s
    else some (subInStart true (applyTable enc_fixes_table s))

example : fix_ikar_position_enc (some (S "িনম্মী")) = some (S "নিম্মী") := by decide

/-! ## `fix_all_csv.py` -/

/-- The substring-correction table of `fix_all_csv.fix_bengali_characters`
(lines 17-49). -/
def all_csv_fixes_table : List (Str × Str) :=
  [(S "ভাটার", S "ভোটার"), (S "কাড", S "কোড"), (S "রাড", S "রোড"),
   (S "মাহাম্মদ", S "মোহাম্মদ"), (S "মাসােদ্দক", S "মোসাদ্দেক"),
   (S "মাসাম্মৎ", S "মোসাম্মৎ"), (S "মাসাম্মত", S "মোসাম্মত"),
   (S "মাসিলম", S "মোছলিম"), (S "মাহাঃ", S "মোহাঃ"), (S "মাসাঃ", S "মোসাঃ"),
   (S "মাছাঃ", S "মোছাঃ"), (S "মাঃ", S "মোঃ"), (S "বগম", S "বেগম"),
   (S "পশা", S "পেশা"), (S "কন্দ্র", S "কেন্দ্র"), (S "সয়দা", S "সয়দা"),
   (S "সয়দ", S "সয়দ"), (S "খােদজা", S "খোদেজা"), (S "জােবদা", S "জোবেদা"),
   (S "নওয়াজ", S "নওয়াজ"), (S "গালাম", S "গোলাম"), (S "ফরেদৌসী", S "ফরিদৌসী"),
   (S "শখ", S "শেখ"), (S "রজওয়ানা", S "রেজওয়ানা"), (S "রজাউল", S "রেজাউল"),
   (S "হােসন", S "হোসেন"), (S "কায়াটার", S "কোয়ার্টার"), (S "কায়াটা", S "কোয়ার্টার"),
   (S "কায়াট", S "কোয়ার্টার"), (S "গালস", S "গার্লস"), (S "টচার", S "টিচার")]

/-- `fix_all_csv.fix_bengali_characters`: guard, then the table. -/
def fix_bengali_characters_all (s : Str) : Str :=
  if s.isEmpty then s else applyTable all_csv_fixes_table s

example : fix_bengali_characters_all (S "ভাটার") = S "ভোটার" := by decide

/-! ## `fix_ikar_auto.py` -/

/-- Separator class of the first ই-কার pattern: `(^|\s|[\/,\.;:\(\)])`
(the non-`^` alternatives). -/
def isIkarSep (c : Char) : Bool :=
  isPySpace c || c = '/' || c = ',' || c = '.' || c = ';' || c = ':' || c = '(' || c = ')'

/-- `re.sub(r'(^|\s|[\/,\.;:\(\)])ি([ক-হ])', r'\1\2ি', text)`: a `ি` at
the start of the string or after a separator, followed by a consonant,
is moved after that consonant.  `atStart` is true only at position 0. -/
def fixIkar1 (atStart : Bool) : Str → Str
  | [] => []
  | [a] => [a]
  | a :: b :: rest =>
    if a = 'ি' then
      if atStart && isCons b then b :: 'ি' :: fixIkar1 false rest
      else 'ি' :: fixIkar1 false (b :: rest)
    else if isIkarSep a && b = 'ি' && (match rest with | c :: _ => isCons c | [] => false) then
      match rest with
      | c :: rest₂ => a :: c :: 'ি' :: fixIkar1 false rest₂
      | [] => []
    else a :: fixIkar1 false (b :: rest)

/-- `re.sub(r'(?<![ক-হ])ি([ক-হ])', r'\1ি', text)`: a `ি` not preceded by
a consonant (lookbehind on the original string) and followed by a
consonant is swapped with it; `prev` is the original previous character. -/
def prevIsCons : Option Char → Bool
  | some p => isCons p
  | none => false

def fixIkar2 (prev : Option Char) : Str → Str
  | a :: b :: rest =>
    if a = 'ি' && !prevIsCons prev && isCons b then
      b :: 'ি' :: fixIkar2 (some b) rest
    else a :: fixIkar2 (some a) (b :: rest)
  | [a] => [a]
  | [] => []

/-- `fix_ikar_auto.fix_ikar_position` (lines 19-52): the two substitution
passes, the second applied to the output of the first. -/
def fix_ikar_position_auto (s : Str) : Str :=
  if s.isEmpty then s else fixIkar2 none (fixIkar1 true s)

example : fix_ikar_position_auto (S "িব") = S "বি" := by decide
example : fix_ikar_position_auto (S "৬৬/িব") = S "৬৬/বি" := by decide
example : fix_ikar_position_auto (S "সুিফয়া") = S "সুফিয়া" := by decide
example : fix_ikar_position_auto (S "কি") = S "কি" := by decide
example : fix_ikar_position_auto (S "িিক") = S "িকি" := by decide
example : fix_ikar_position_auto (S "িকিব") = S "কিবি" := by decide
example : fix_ikar_position_auto (S "গৃিহনী") = S "গৃহিনী" := by decide

/-! ## FieldExtractor: `extract_sequential_data` (`structure_voter_data_v2.py`) -/

/-- The lazy capture group `([^C]+?)(?=LOOK)` of the extractor regexes:
starting at the current position, take the shortest non-empty run of
characters outside the excluded class whose end satisfies the lookahead;
returns the group and the remainder after it. -/
def lazyGrow (inCl : Char → Bool) (look : Str → Bool) (acc : Str) : Str → Option (Str × Str)
  | [] => none
  | c :: rest =>
    if inCl c then
      if look rest then some (acc ++ [c], rest)
      else lazyGrow inCl look (acc ++ [c]) rest
    else none

/-- Excluded characters `[^পিতামাতাজন্মঠিকানাপেশাভোটার]` of
`extract_sequential_data`. -/
def exclSeq : Str := S "পিতামাতাজন্মঠিকানাপেশাভোটার"

def inClassSeq (c : Char) : Bool := !(exclSeq.contains c)

/-- `ভোটার\s+নং:` at the current position. -/
def voterKwAt (l : Str) : Bool :=
  (S "ভোটার").isPrefixOf l &&
  (let r := l.drop 5
   let w := r.takeWhile isPySpace
   !w.isEmpty && (S "নং:").isPrefixOf (r.drop w.length))

/-- One of the marker keywords of `extract_sequential_data`'s lookahead
at the current position. -/
def seqKeywordAt (l : Str) : Bool :=
  (S "পিতা:").isPrefixOf l || (S "মাতা:").isPrefixOf l ||
  (S "জন্মতারিখ:").isPrefixOf l || (S "ঠিকানা:").isPrefixOf l ||
  (S "পেশা:").isPrefixOf l || voterKwAt l

/-- Lookahead `(?=\s+(?:পিতা:|মাতা:|জন্মতারিখ:|ঠিকানা:|পেশা:|ভোটার\s+নং:)|$)`. -/
def seqLookahead (rem : Str) : Bool :=
  pyEnd rem ||
  (let w := rem.takeWhile isPySpace
   !w.isEmpty && seqKeywordAt (rem.drop w.length))

/-- The `^\s*` prefix backtracks from the longest whitespace run down to
the empty one; the first successful lazy-group match wins. -/
def seqTryK (part : Str) : Nat → Option (Str × Str)
  | 0 => lazyGrow inClassSeq seqLookahead [] part
  | k + 1 =>
    match lazyGrow inClassSeq seqLookahead [] (part.drop (k + 1)) with
    | some r => some r
    | none => seqTryK part k

/-- `re.match` of the `extract_sequential_data` pattern against one part. -/
def seqMatch (part : Str) : Option (Str × Str) :=
  seqTryK part (part.takeWhile isPySpace).length

/-- `extract_sequential_data` (`structure_voter_data_v2.py` lines 19-37):
split by the keyword; for each later part take the regex group when the
pattern matches, the whole part otherwise; strip and keep non-empty. -/
def extract_sequential_data (text keyword : Str) : List Str :=
  ((splitOn keyword text).drop 1).filterMap fun part =>
    match seqMatch part with
    | some r => let v := pyStrip r.1; if v.isEmpty then none else some v
    | none => let v := pyStrip part; if v.isEmpty then none else some v

example : extract_sequential_data (S "ভোটার নং: ১১ ভোটার নং: ২২") (S "ভোটার নং:")
    = [S "১১", S "২২"] := by decide
example : extract_sequential_data (S "২. কেউ ভোটার নং: ১২৩") (S "ভোটার নং:")
    = [S "১২৩"] := by decide
example : extract_sequential_data (S "ভোটার নং: পিতা: রহিম") (S "ভোটার নং:")
    = [S "পিতা: রহিম"] := by decide
example : extract_sequential_data (S "ভোটার নং:   ") (S "ভোটার নং:") = [] := by decide

/-! ## `structure_voter_data.py` (v1) extractors -/

/-- Excluded characters `[^পিতামাতাজন্মঠিকানাপেশা]` of the v1 value
regexes. -/
def exclFa : Str := S "পিতামাতাজন্মঠিকানাপেশা"

def inClassFa (c : Char) : Bool := !(exclFa.contains c)

/-- Lookahead `(?=\s+পিতা:|মাতা:|জন্ম|ঠিকানা:|পেশা:|$)` of
`extract_fathers` (the `\s+` belongs to the first alternative only). -/
def faLookahead (rem : Str) : Bool :=
  pyEnd rem || (S "মাতা:").isPrefixOf rem || (S "জন্ম").isPrefixOf rem ||
  (S "ঠিকানা:").isPrefixOf rem || (S "পেশা:").isPrefixOf rem ||
  (let w := rem.takeWhile isPySpace
   !w.isEmpty && (S "পিতা:").isPrefixOf (rem.drop w.length))

/-- `extract_fathers` (`structure_voter_data.py` lines 40-52): regex
split by `পিতা:\s*`, then an anchored lazy-group match per part;
a part without a match contributes nothing. -/
def extract_fathers (line : Str) : List Str :=
  ((splitKwWs (S "পিতা:") line).drop 1).filterMap fun part =>
    match lazyGrow inClassFa faLookahead [] part with
    | some r => let v := pyStrip r.1; if v.isEmpty then none else some v
    | none => none

/-- A voter-id match `ভোটার\s+নং:\s*([০-৯]+)` at the current position:
returns the digit group and the remainder after it. -/
def voterMatchAt (l : Str) : Option (Str × Str) :=
  if (S "ভোটার").isPrefixOf l then
    let l₁ := l.drop 5
    let w₁ := l₁.takeWhile isPySpace
    if w₁.isEmpty then none
    else
      let l₂ := l₁.drop w₁.length
      if (S "নং:").isPrefixOf l₂ then
        let l₃ := (l₂.drop 3).dropWhile isPySpace
        let d := l₃.takeWhile isBDigit
        if d.isEmpty then none else some (d, l₃.drop d.length)
      else none
  else none

/-- `re.findall` scan for voter ids (fuel-bounded; `l.length` steps
always suffice). -/
def voterScanF : Nat → Str → List Str
  | 0, _ => []
  | _ + 1, [] => []
  | fuel + 1, a :: rest =>
    match voterMatchAt (a :: rest) with
    | some (d, rem) => d :: voterScanF fuel rem
    | none => voterScanF fuel rest

/-- `extract_voter_ids` (`structure_voter_data.py` lines 32-37). -/
def extract_voter_ids (line : Str) : List Str := voterScanF line.length line

example : extract_voter_ids (S "ভোটার নং: ২৬২২১ ভোটার নং: ১২") = [S "২৬২২১", S "১২"] := by decide
example : extract_voter_ids (S "ভোটার নং: abc") = [] := by decide
example : extract_voter_ids (S "") = [] := by decide

/-- Date characters `[০-৯/]`. -/
def isDobChar (c : Char) : Bool := isBDigit c || c = '/'

/-- Excluded characters `[^জন্মঠিকানাপেশা]` of the profession group. -/
def exclDp : Str := S "জন্মঠিকানাপেশা"

def inClassDp (c : Char) : Bool := !(exclDp.contains c)

/-- Lookahead `(?=\s+জন্মতারিখ:|ঠিকানা:|পেশা:|$)` (the `\s+` belongs to
the first alternative only). -/
def dpLookahead (rem : Str) : Bool :=
  pyEnd rem || (S "ঠিকানা:").isPrefixOf rem || (S "পেশা:").isPrefixOf rem ||
  (let w := rem.takeWhile isPySpace
   !w.isEmpty && (S "জন্মতারিখ:").isPrefixOf (rem.drop w.length))

/-- The `\s*` after `পেশা:` backtracks from the longest whitespace run
down to none; first successful lazy-group match wins. -/
def dpTryK (l : Str) : Nat → Option (Str × Str)
  | 0 => lazyGrow inClassDp dpLookahead [] l
  | k + 1 =>
    match lazyGrow inClassDp dpLookahead [] (l.drop (k + 1)) with
    | some r => some r
    | none => dpTryK l k

/-- One match of the `extract_dob_profession` pattern
`জন্মতারিখ:\s*([০-৯/]+)\s+পেশা:\s*([^জন্মঠিকানাপেশা]+?)(?=…)` at the
current position: the date group, the profession group, and the
remainder after the match. -/
def dobMatchAt (l : Str) : Option ((Str × Str) × Str) :=
  if (S "জন্মতারিখ:").isPrefixOf l then
    let l₁ := (l.drop 10).dropWhile isPySpace
    let d := l₁.takeWhile isDobChar
    if d.isEmpty then none
    else
      let l₂ := l₁.drop d.length
      let w₂ := l₂.takeWhile isPySpace
      if w₂.isEmpty then none
      else
        let l₃ := l₂.drop w₂.length
        if (S "পেশা:").isPrefixOf l₃ then
          let l₄ := l₃.drop 5
          (dpTryK l₄ (l₄.takeWhile isPySpace).length).map fun r => ((d, r.1), r.2)
        else none
  else none

/-- `re.findall` scan for (date, profession) pairs (fuel-bounded). -/
def dobScanF : Nat → Str → List (Str × Str)
  | 0, _ => []
  | _ + 1, [] => []
  | fuel + 1, a :: rest =>
    match dobMatchAt (a :: rest) with
    | some (pr, rem) => (pyStrip pr.1, pyStrip pr.2) :: dobScanF fuel rem
    | none => dobScanF fuel rest

/-- `extract_dob_profession` (`structure_voter_data.py` lines 70-82). -/
def extract_dob_profession (line : Str) : List (Str × Str) :=
  dobScanF line.length line

example : extract_dob_profession (S "জন্মতারিখ: ১২/১২/১৯৭৯ পেশা: গৃহবধূ")
    = [(S "১২/১২/১৯৭৯", S "গৃহবধূ")] := by decide
example : extract_dob_profession (S "জন্মতারিখ: ১২/১২/১৯৭৯ পেশা: ছাত্র") = [] := by decide

/-! ## DOB/profession extraction of the v2 segmenter
(`structure_voter_data_v2.py` lines 104-135) -/

/-- The remainder after the first occurrence of `kw` (Python
`part.find(kw)` plus slicing), or `none` when absent. -/
def afterFirst (kw : Str) : Str → Option Str
  | [] => none
  | a :: rest =>
    if kw.isPrefixOf (a :: rest) then some ((a :: rest).drop kw.length)
    else afterFirst kw rest

/-- `re.search(r'([০-৯/]+)', part)`: the first maximal run of date
characters. -/
def dobSearchRun : Str → Option Str
  | [] => none
  | a :: rest =>
    if isDobChar a then some ((a :: rest).takeWhile isDobChar)
    else dobSearchRun rest

/-- The profession value of one part in the v2 extraction: strip the
text after `পেশা:`, try the anchored lazy-group match, and fall back to
the first whitespace-delimited token (`prof_text.split()[0]`, or empty). -/
def profValueV2 (raw : Str) : Str :=
  let pt := pyStrip raw
  match lazyGrow inClassDp dpLookahead [] pt with
  | some r => pyStrip r.1
  | none => pt.takeWhile fun c => !isPySpace c

/-- The v2 segmenter's inline DOB/profession extraction: normalize the
corrupted marker spellings, split by the date marker, and pair each
part's first date run with its profession value. -/
def extract_dob_profession_v2 (text : Str) : List (Str × Str) :=
  let n := replaceAll (S "পশা:") (S "পেশা:")
            (replaceAll (S "জন্মতািরখ:") (S "জন্মতারিখ:") text)
  ((splitOn (S "জন্মতারিখ:") n).drop 1).filterMap fun part =>
    match dobSearchRun part with
    | none => none
    | some d =>
      let dob := pyStrip d
      match afterFirst (S "পেশা:") part with
      | some t => some (dob, profValueV2 t)
      | none => some (dob, [])

/-! ## Name extraction and the v2 record segmenter
(`structure_voter_data_v2.py` lines 40-164) -/

/-- Lookahead `(?=\s+[০-৯]+\.|$)` of the name pattern. -/
def nameLookahead (rem : Str) : Bool :=
  pyEnd rem ||
  (let w := rem.takeWhile isPySpace
   !w.isEmpty &&
     (let a := rem.drop w.length
      let d := a.takeWhile isBDigit
      !d.isEmpty && (a.drop d.length).head? == some '.'))

/-- The `\s+` after the serial dot backtracks from the longest
whitespace run down to one character; first successful lazy-group
match wins. -/
def nameTryK (l₁ : Str) : Nat → Option (Str × Str)
  | 0 => none
  | k + 1 =>
    match lazyGrow (fun c => !isBDigit c) nameLookahead [] (l₁.drop (k + 1)) with
    | some r => some r
    | none => nameTryK l₁ k

/-- One match of `[০-৯]+\.\s+([^০-৯]+?)(?=\s+[০-৯]+\.|$)` at the current
position: the name group and the remainder after the match. -/
def nameMatchAt (l : Str) : Option (Str × Str) :=
  let d := l.takeWhile isBDigit
  if d.isEmpty then none
  else
    match l.drop d.length with
    | '.' :: l₁ => nameTryK l₁ (l₁.takeWhile isPySpace).length
    | _ => none

/-- `re.findall` scan for name groups (fuel-bounded). -/
def nameScanF : Nat → Str → List Str
  | 0, _ => []
  | _ + 1, [] => []
  | fuel + 1, a :: rest =>
    match nameMatchAt (a :: rest) with
    | some (g, rem) => g :: nameScanF fuel rem
    | none => nameScanF fuel rest

/-- Name extraction of the v2 segmenter (lines 65-74): all name groups,
stripped, non-empty ones kept. -/
def extract_names_v2 (t : Str) : List Str :=
  (nameScanF t.length t).filterMap fun g =>
    let v := pyStrip g
    if v.isEmpty then none else some v

example : extract_names_v2 (S "১. নাম") = [S "নাম"] := by decide
example : extract_names_v2 (S "২. কেউ ভোটার নং: ১২৩") = [] := by decide
example : extract_names_v2 (S "১. ফাতেমা দিনার ২. শাহ নাজ") = [S "ফাতেমা দিনার", S "শাহ নাজ"] := by decide
example : extract_names_v2 (S "১.   ২. x") = [S "x"] := by decide

/-- A structured person row (`Name, NID, Father, Mother, DOB,
Profession, Address, Page`); string fields default to empty. -/
structure PersonRecord where
  Name : Str
  NID : Str
  Father : Str
  Mother : Str
  DOB : Str
  Profession : Str
  Address : Str
  Page : Nat
deriving Repr, DecidableEq, Inhabited

/-- The category lists collected from one lookahead window. -/
structure Collected where
  voterIds : List Str
  fathers : List Str
  mothers : List Str
  dobProfs : List (Str × Str)
  addresses : List Str
deriving Repr, DecidableEq

/-- One lookahead line of the v2 segmenter (lines 90-142): each category
is captured from the first qualifying line only (`not xs` guards). -/
def collectStep (c : Collected) (nt : Str) : Collected :=
  let c :=
    if occursIn (S "ভোটার নং:") nt && c.voterIds.isEmpty then
      { c with voterIds := extract_sequential_data nt (S "ভোটার নং:") }
    else c
  let c :=
    if (occursIn (S "পিতা:") nt || occursIn (S "িপতা:") nt) &&
        !occursIn (S "মাতা:") nt && c.fathers.isEmpty then
      { c with fathers :=
          if occursIn (S "পিতা:") nt then extract_sequential_data nt (S "পিতা:")
          else extract_sequential_data nt (S "িপতা:") }
    else c
  let c :=
    if occursIn (S "মাতা:") nt && c.mothers.isEmpty then
      { c with mothers := extract_sequential_data nt (S "মাতা:") }
    else c
  let c :=
    if (occursIn (S "জন্মতারিখ:") nt || occursIn (S "জন্মতািরখ:") nt) &&
        (occursIn (S "পেশা:") nt || occursIn (S "পশা:") nt) && c.dobProfs.isEmpty then
      { c with dobProfs := extract_dob_profession_v2 nt }
    else c
  let c :=
    if (occursIn (S "ঠিকানা:") nt || occursIn (S "িঠকানা:") nt) && c.addresses.isEmpty then
      { c with addresses :=
          if occursIn (S "ঠিকানা:") nt then extract_sequential_data nt (S "ঠিকানা:")
          else extract_sequential_data nt (S "িঠকানা:") }
    else c
  c

/-- Collect the category lists from the lookahead window. -/
def collectWindow (window : List Str) : Collected :=
  window.foldl collectStep ⟨[], [], [], [], []⟩

/-- The Emit step (lines 144-158): `max_count` records, record `i`
taking index `i` of each category's list when present, else empty. -/
def emitRecords (names nids fathers mothers : List Str) (dps : List (Str × Str))
    (addrs : List Str) (page : Nat) : List PersonRecord :=
  let n := max (max (max (max (max names.length nids.length) fathers.length)
      mothers.length) dps.length) addrs.length
  (List.range n).map fun i =>
    { Name := names.getD i [], NID := nids.getD i [], Father := fathers.getD i [],
      Mother := mothers.getD i [], DOB := (dps.getD i ([], [])).1,
      Profession := (dps.getD i ([], [])).2, Address := addrs.getD i [],
      Page := page }

/-- Process one anchor group: extract names from the anchor line,
collect the other categories from the window, and emit. -/
def processGroup (t : Str) (window : List Str) (page : Nat) : List PersonRecord :=
  emitRecords (extract_names_v2 t) (collectWindow window).voterIds
    (collectWindow window).fathers (collectWindow window).mothers
    (collectWindow window).dobProfs (collectWindow window).addresses page

/-- Header keywords skipped by the v2 segmenter (line 59). -/
def headers_v2 : List Str :=
  [S "আদমজী", S "ক্যান্টনমেন্ট", S "এলাকা কোড", S "পৃষ্ঠা", S "ক্রিমক", S "ভাবন", S "কেন্দ্র"]

def isHeaderV2 (t : Str) : Bool := headers_v2.any fun k => occursIn k t

/-- `re.match(r'^[০-৯]+\.\s+', text)`: the anchor test. -/
def isAnchor (t : Str) : Bool :=
  let d := t.takeWhile isBDigit
  !d.isEmpty &&
    (match t.drop d.length with
     | '.' :: c :: _ => isPySpace c
     | _ => false)

/-- `structure_voter_data` (`structure_voter_data_v2.py` lines 40-164)
on the ordered `(Page, Text)` row stream: strip each row's text, skip
header lines, and at each anchor line emit its group from the lookahead
window of the next five rows; the scan always advances one row. -/
def structure_voter_data : List (Nat × Str) → List PersonRecord
  | [] => []
  | (page, raw) :: rest =>
    let t := pyStrip raw
    if isHeaderV2 t then structure_voter_data rest
    else if isAnchor t then
      processGroup t ((rest.take 5).map fun r => pyStrip r.2) page
        ++ structure_voter_data rest
    else structure_voter_data rest

example :
    structure_voter_data [(1, S "১. নাম"), (1, S "২. কেউ ভোটার নং: ১২৩")]
      = [⟨S "নাম", S "১২৩", [], [], [], [], [], 1⟩] := by decide

example :
    structure_voter_data [(1, S "১. নাম"), (1, S "ভোটার নং: ১১ ভোটার নং: ২২")]
      = [⟨S "নাম", S "১১", [], [], [], [], [], 1⟩,
         ⟨[], S "২২", [], [], [], [], [], 1⟩] := by decide

example :
    structure_voter_data
      [(1, S "১. ফাতেমা দিনার ২. শাহ নাজ"),
       (1, S "ভোটার নং: ১১ ভোটার নং: ২২"),
       (1, S "পিতা: করিম পিতা: রহিম")]
      = [⟨S "ফাতেমা দিনার", S "১১", S "করিম", [], [], [], [], 1⟩,
         ⟨S "শাহ নাজ", S "২২", S "রহিম", [], [], [], [], 1⟩] := by decide

/-! ## Lemmas: splitting when the marker is absent -/

theorem occursIn_cons_false {sep : Str} {a : Char} {rest : Str}
    (h : occursIn sep (a :: rest) = false) :
    sep.isPrefixOf (a :: rest) = false ∧ occursIn sep rest = false := by
  simpa [occursIn] using h

theorem splitOnAux_no_occurrence (sep : Str) (hsep : sep ≠ []) :
    ∀ (fuel : Nat) (l acc : Str), occursIn sep l = false →
      splitOnAux sep fuel acc l = [acc ++ l] := by
  intro fuel
  induction fuel with
  | zero => intro l acc h; rfl
  | succ fuel ih =>
    intro l acc h
    cases l with
    | nil => simp [splitOnAux]
    | cons a rest =>
      obtain ⟨h1, h2⟩ := occursIn_cons_false h
      rw [splitOnAux, if_neg (by simp [h1])]
      rw [ih rest (acc ++ [a]) h2]
      simp

theorem splitOn_no_occurrence {sep l : Str} (hsep : sep ≠ [])
    (h : occursIn sep l = false) : splitOn sep l = [l] := by
  simpa using splitOnAux_no_occurrence sep hsep l.length l [] h

theorem splitKwWsAux_no_occurrence (kw : Str) (hkw : kw ≠ []) :
    ∀ (fuel : Nat) (l acc : Str), occursIn kw l = false →
      splitKwWsAux kw fuel acc l = [acc ++ l] := by
  intro fuel
  induction fuel with
  | zero => intro l acc h; rfl
  | succ fuel ih =>
    intro l acc h
    cases l with
    | nil => simp [splitKwWsAux]
    | cons a rest =>
      obtain ⟨h1, h2⟩ := occursIn_cons_false h
      rw [splitKwWsAux, if_neg (by simp [h1])]
      rw [ih rest (acc ++ [a]) h2]
      simp

theorem splitKwWs_no_occurrence {kw l : Str} (hkw : kw ≠ [])
    (h : occursIn kw l = false) : splitKwWs kw l = [l] := by
  simpa using splitKwWsAux_no_occurrence kw hkw l.length l [] h

/-! ## Lemmas: voter-id shape -/

theorem voterMatchAt_shape {l d rem : Str} (h : voterMatchAt l = some (d, rem)) :
    d ≠ [] ∧ ∀ c ∈ d, isBDigit c = true := by
  simp only [voterMatchAt] at h
  split_ifs at h with h1 h2 h3 h4
  injection h with h'
  injection h' with hd hrem
  subst hd
  refine ⟨?_, fun c hc => List.mem_takeWhile_imp hc⟩
  intro hnil
  rw [hnil] at h4
  exact h4 rfl

theorem voterScanF_shape :
    ∀ (fuel : Nat) (l : Str) (v : Str), v ∈ voterScanF fuel l →
      v ≠ [] ∧ ∀ c ∈ v, isBDigit c = true := by
  intro fuel
  induction fuel with
  | zero => intro l v h; exact absurd h (by simp [voterScanF])
  | succ fuel ih =>
    intro l v h
    cases l with
    | nil => exact absurd h (by simp [voterScanF])
    | cons a rest =>
      rw [voterScanF] at h
      rcases hm : voterMatchAt (a :: rest) with _ | ⟨d, rem⟩
      · rw [hm] at h
        exact ih rest v h
      · rw [hm] at h
        rcases List.mem_cons.mp h with hv | hv
        · subst hv
          exact voterMatchAt_shape hm
        · exact ih rem v hv

/-! ## Lemmas: the Emit step -/

theorem emitRecords_length (names nids fathers mothers : List Str)
    (dps : List (Str × Str)) (addrs : List Str) (page : Nat) :
    (emitRecords names nids fathers mothers dps addrs page).length =
      max (max (max (max (max names.length nids.length) fathers.length)
        mothers.length) dps.length) addrs.length := by
  simp [emitRecords]

theorem emitRecords_getD (names nids fathers mothers : List Str)
    (dps : List (Str × Str)) (addrs : List Str) (page : Nat) (i : Nat)
    (h : i < (emitRecords names nids fathers mothers dps addrs page).length) :
    (emitRecords names nids fathers mothers dps addrs page).getD i default =
      { Name := names.getD i [], NID := nids.getD i [], Father := fathers.getD i [],
        Mother := mothers.getD i [], DOB := (dps.getD i ([], [])).1,
        Profession := (dps.getD i ([], [])).2, Address := addrs.getD i [],
        Page := page } := by
  simp only [emitRecords, List.length_map, List.length_range] at h
  simp [emitRecords, List.getD_eq_getElem?_getD, List.getElem?_map,
    List.getElem?_range, h]

theorem extract_names_v2_ne_nil {t v : Str} (h : v ∈ extract_names_v2 t) :
    v ≠ [] := by
  simp only [extract_names_v2, List.mem_filterMap] at h
  obtain ⟨g, _, hg⟩ := h
  by_cases he : (pyStrip g).isEmpty
  · rw [if_pos (by simpa using he)] at hg
    exact Option.noConfusion hg
  · rw [if_neg (by simpa using he)] at hg
    injection hg with hv
    subst hv
    simpa using he

/-! ## Lemmas: idempotence of the whitespace-normalization stage -/

/-- No two adjacent occurrences of the character `c`. -/
def noRun (c : Char) (l : Str) : Prop :=
  List.Chain' (fun a b => ¬(a = c ∧ b = c)) l

theorem mem_collapseGo {c x : Char} : ∀ (l : Str) (prev : Bool),
    x ∈ collapseGo c prev l → x = c ∨ x ∈ l := by
  intro l
  induction l with
  | nil => intro prev h; exact absurd h (by simp [collapseGo])
  | cons a rest ih =>
    intro prev h
    rw [collapseGo] at h
    by_cases hac : a = c
    · rw [if_pos hac] at h
      rcases List.mem_append.mp h with h1 | h1
      · left
        cases prev <;> simp_all
      · rcases ih true h1 with h2 | h2
        · exact Or.inl h2
        · exact Or.inr (List.mem_cons_of_mem a h2)
    · rw [if_neg hac] at h
      rcases List.mem_cons.mp h with h1 | h1
      · subst h1; exact Or.inr (List.mem_cons_self _ _)
      · rcases ih false h1 with h2 | h2
        · exact Or.inl h2
        · exact Or.inr (List.mem_cons_of_mem a h2)

theorem mem_dropTrailing {p : Char → Bool} {x : Char} : ∀ (l : Str),
    x ∈ dropTrailing p l → x ∈ l := by
  intro l
  induction l with
  | nil => intro h; exact absurd h (by simp [dropTrailing])
  | cons a rest ih =>
    intro h
    rw [dropTrailing] at h
    rcases hr : dropTrailing p rest with _ | ⟨b, rest₂⟩
    · rw [hr] at h
      by_cases hp : p a
      · rw [if_pos hp] at h; exact absurd h (by simp)
      · rw [if_neg hp] at h
        simp only [List.mem_singleton] at h
        subst h; exact List.mem_cons_self _ _
    · rw [hr] at h
      rcases List.mem_cons.mp h with h1 | h1
      · subst h1; exact List.mem_cons_self _ _
      · exact List.mem_cons_of_mem a (ih (hr ▸ h1))

theorem mem_dropWhile {p : Char → Bool} {x : Char} : ∀ (l : Str),
    x ∈ l.dropWhile p → x ∈ l := by
  intro l
  induction l with
  | nil => intro h; exact absurd h (by simp)
  | cons a rest ih =>
    intro h
    by_cases hp : p a
    · rw [List.dropWhile_cons_of_pos hp] at h
      exact List.mem_cons_of_mem a (ih h)
    · rwa [List.dropWhile_cons_of_neg hp] at h

theorem crToLf_no_cr (l : Str) : '\r' ∉ crToLf l := by
  intro h
  simp only [crToLf, List.mem_map] at h
  obtain ⟨x, _, hx⟩ := h
  by_cases hxr : x = '\r' <;> simp [hxr] at hx

theorem subCRLF_eq_self : ∀ (l : Str), '\r' ∉ l → subCRLF l = l
  | [], _ => rfl
  | [a], _ => rfl
  | a :: b :: rest, h => by
    have ha : a ≠ '\r' := fun hr => h (hr ▸ List.mem_cons_self _ _)
    rw [subCRLF, if_neg (by simp [ha])]
    rw [subCRLF_eq_self (b :: rest) fun hm => h (List.mem_cons_of_mem a hm)]

theorem crToLf_eq_self : ∀ (l : Str), '\r' ∉ l → crToLf l = l := by
  intro l
  induction l with
  | nil => intro _; rfl
  | cons a rest ih =>
    intro h
    simp only [crToLf, List.map_cons] at ih ⊢
    rw [ih fun hm => h (List.mem_cons_of_mem a hm)]
    have : a ≠ '\r' := fun hr => h (hr ▸ List.mem_cons_self _ _)
    simp [this]

theorem collapseGo_noRun (c : Char) : ∀ (l : Str) (prev : Bool),
    noRun c (collapseGo c prev l) ∧
      ((collapseGo c prev l).head? = some c → prev = false) := by
  intro l
  induction l with
  | nil => intro prev; exact ⟨List.chain'_nil, by simp [collapseGo]⟩
  | cons a rest ih =>
    intro prev
    rw [collapseGo]
    by_cases hac : a = c
    · rw [if_pos hac]
      cases prev with
      | true =>
        rw [if_pos rfl, List.nil_append]
        exact ⟨(ih true).1, fun h => absurd ((ih true).2 h) (by simp)⟩
      | false =>
        rw [if_neg (fun h => Bool.noConfusion h), List.singleton_append]
        constructor
        · unfold noRun
          rw [List.chain'_cons']
          refine ⟨fun y hy => fun ⟨_, hyc⟩ => ?_, (ih true).1⟩
          have := (ih true).2 (hyc ▸ hy)
          exact absurd this (by simp)
        · intro _; rfl
    · rw [if_neg hac]
      constructor
      · unfold noRun
        rw [List.chain'_cons']
        exact ⟨fun y hy => fun ⟨hc1, _⟩ => hac hc1, (ih false).1⟩
      · intro h
        simp only [List.head?_cons, Option.some.injEq] at h
        exact absurd h hac

theorem collapseGo_eq_self (c : Char) : ∀ (l : Str) (prev : Bool),
    noRun c l → (prev = true → l.head? ≠ some c) → collapseGo c prev l = l := by
  intro l
  induction l with
  | nil => intro prev _ _; rfl
  | cons a rest ih =>
    intro prev hnr hp
    rw [collapseGo]
    by_cases hac : a = c
    · rw [if_pos hac]
      cases prev with
      | true => exact absurd (by simp [hac]) (hp rfl)
      | false =>
        rw [if_neg (fun h => Bool.noConfusion h), List.singleton_append]
        rw [hac] at hnr ⊢
        rw [ih true hnr.tail ?_]
        intro _ hh
        rcases rest with _ | ⟨b, rest₂⟩
        · exact Option.noConfusion hh
        · simp only [List.head?_cons, Option.some.injEq] at hh
          unfold noRun at hnr
          rw [List.chain'_cons'] at hnr
          exact hnr.1 b (by simp) ⟨rfl, hh⟩
    · rw [if_neg hac]
      rw [ih false hnr.tail (fun h => Bool.noConfusion h)]

theorem collapseGo_noRun_other {c c' : Char} (hcc : c ≠ c') : ∀ (l : Str) (prev : Bool),
    noRun c l →
    noRun c (collapseGo c' prev l) ∧
      (∀ x, (collapseGo c' false l).head? = some x → x = c' ∨ l.head? = some x) := by
  intro l
  induction l with
  | nil => intro prev _; exact ⟨List.chain'_nil, by simp [collapseGo]⟩
  | cons a rest ih =>
    intro prev hnr
    constructor
    · rw [collapseGo]
      by_cases hac : a = c'
      · rw [if_pos hac]
        cases prev with
        | true => simpa using (ih true hnr.tail).1
        | false =>
          rw [if_neg (fun h => Bool.noConfusion h), List.singleton_append]
          unfold noRun
          rw [List.chain'_cons']
          refine ⟨fun y hy => fun ⟨hc1, _⟩ => hcc.symm hc1, (ih true hnr.tail).1⟩
      · rw [if_neg hac]
        unfold noRun
        rw [List.chain'_cons']
        constructor
        · intro y hy hcy
          rcases (ih false hnr.tail).2 y hy with h1 | h1
          · exact hcc.symm (h1 ▸ hcy.2)
          · rcases rest with _ | ⟨b, rest₂⟩
            · exact Option.noConfusion h1
            · simp only [List.head?_cons, Option.some.injEq] at h1
              unfold noRun at hnr
              rw [List.chain'_cons'] at hnr
              exact hnr.1 y (by simp [h1]) hcy
        · exact (ih false hnr.tail).1
    · intro x hx
      rw [collapseGo] at hx
      by_cases hac : a = c'
      · rw [if_pos hac] at hx
        simp at hx
        exact Or.inl hx.symm
      · rw [if_neg hac] at hx
        simp only [List.head?_cons, Option.some.injEq] at hx
        exact Or.inr (by simp [hx])

theorem noRun_dropWhile {c : Char} {p : Char → Bool} : ∀ (l : Str),
    noRun c l → noRun c (l.dropWhile p) := by
  intro l
  induction l with
  | nil => intro h; simpa using h
  | cons a rest ih =>
    intro h
    by_cases hp : p a
    · rw [List.dropWhile_cons_of_pos hp]
      exact ih h.tail
    · rwa [List.dropWhile_cons_of_neg hp]

theorem dropTrailing_head? {p : Char → Bool} {x : Char} : ∀ (l : Str),
    (dropTrailing p l).head? = some x → l.head? = some x := by
  intro l
  cases l with
  | nil => intro h; exact absurd h (by simp [dropTrailing])
  | cons a rest =>
    intro h
    rw [dropTrailing] at h
    rcases hr : dropTrailing p rest with _ | ⟨b, rest₂⟩
    · rw [hr] at h
      by_cases hp : p a
      · rw [if_pos hp] at h; exact absurd h (by simp)
      · rw [if_neg hp] at h
        simpa using h
    · rw [hr] at h
      simpa using h

theorem noRun_dropTrailing {c : Char} {p : Char → Bool} : ∀ (l : Str),
    noRun c l → noRun c (dropTrailing p l) := by
  intro l
  induction l with
  | nil => intro h; simpa [dropTrailing] using h
  | cons a rest ih =>
    intro h
    rw [dropTrailing]
    rcases hr : dropTrailing p rest with _ | ⟨b, rest₂⟩
    · show noRun c (if p a = true then [] else [a])
      by_cases hp : p a
      · rw [if_pos hp]; exact List.chain'_nil
      · rw [if_neg hp]; exact List.chain'_singleton a
    · show noRun c (a :: b :: rest₂)
      unfold noRun
      rw [List.chain'_cons']
      constructor
      · intro y hy hcy
        simp only [List.head?_cons, Option.mem_def, Option.some.injEq] at hy
        have hb : rest.head? = some y := dropTrailing_head? rest (by rw [hr, hy]; rfl)
        rcases rest with _ | ⟨b', rest₃⟩
        · exact Option.noConfusion hb
        · simp only [List.head?_cons, Option.some.injEq] at hb
          unfold noRun at h
          rw [List.chain'_cons'] at h
          exact h.1 y (by simp [hb]) hcy
      · exact hr ▸ ih h.tail

theorem head?_dropWhile_false {p : Char → Bool} : ∀ (l : Str) (x : Char),
    (l.dropWhile p).head? = some x → p x = false := by
  intro l
  induction l with
  | nil => intro x h; exact absurd h (by simp)
  | cons a rest ih =>
    intro x h
    by_cases hp : p a
    · rw [List.dropWhile_cons_of_pos hp] at h
      exact ih x h
    · rw [List.dropWhile_cons_of_neg hp] at h
      simp only [List.head?_cons, Option.some.injEq] at h
      subst h
      simpa using hp

theorem getLast?_dropTrailing_false {p : Char → Bool} : ∀ (l : Str) (x : Char),
    (dropTrailing p l).getLast? = some x → p x = false := by
  intro l
  induction l with
  | nil => intro x h; exact absurd h (by simp [dropTrailing])
  | cons a rest ih =>
    intro x h
    rw [dropTrailing] at h
    rcases hr : dropTrailing p rest with _ | ⟨b, rest₂⟩
    · rw [hr] at h
      by_cases hp : p a
      · rw [if_pos hp] at h; exact absurd h (by simp)
      · rw [if_neg hp] at h
        simp only [List.getLast?_singleton, Option.some.injEq] at h
        subst h
        simpa using hp
    · rw [hr] at h
      rw [List.getLast?_cons_cons] at h
      exact ih x (hr ▸ h)

theorem dropWhile_eq_self_of_head {p : Char → Bool} {l : Str}
    (h : ∀ x, l.head? = some x → p x = false) : l.dropWhile p = l := by
  cases l with
  | nil => rfl
  | cons a rest =>
    have := h a (by simp)
    rw [List.dropWhile_cons_of_neg (by simp [this])]

theorem dropTrailing_eq_self_of_last {p : Char → Bool} : ∀ (l : Str),
    (∀ x, l.getLast? = some x → p x = false) → dropTrailing p l = l := by
  intro l
  induction l with
  | nil => intro _; rfl
  | cons a rest ih =>
    intro h
    rcases rest with _ | ⟨b, rest₃⟩
    · have hpa := h a (by simp)
      show (if p a = true then [] else [a]) = [a]
      rw [if_neg (by simp [hpa])]
    · have hh : ∀ x, (b :: rest₃).getLast? = some x → p x = false := by
        intro x hx
        exact h x (by rwa [List.getLast?_cons_cons])
      rw [dropTrailing, ih hh]

theorem pyStrip_head {l : Str} {x : Char} (h : (pyStrip l).head? = some x) :
    isPySpace x = false :=
  head?_dropWhile_false l x (dropTrailing_head? _ h)

theorem pyStrip_getLast {l : Str} {x : Char} (h : (pyStrip l).getLast? = some x) :
    isPySpace x = false :=
  getLast?_dropTrailing_false _ x h

theorem pyStrip_eq_self {l : Str}
    (h1 : ∀ x, l.head? = some x → isPySpace x = false)
    (h2 : ∀ x, l.getLast? = some x → isPySpace x = false) : pyStrip l = l := by
  rw [pyStrip, dropWhile_eq_self_of_head h1, dropTrailing_eq_self_of_last l h2]

theorem pyStrip_idem (l : Str) : pyStrip (pyStrip l) = pyStrip l :=
  pyStrip_eq_self (fun x h => pyStrip_head h) (fun x h => pyStrip_getLast h)

theorem mem_pyStrip {l : Str} {x : Char} (h : x ∈ pyStrip l) : x ∈ l :=
  mem_dropWhile l (mem_dropTrailing _ h)

theorem noRun_pyStrip {c : Char} {l : Str} (h : noRun c l) : noRun c (pyStrip l) :=
  noRun_dropTrailing _ (noRun_dropWhile l h)

theorem normalize_whitespace_idem (s : Str) :
    normalize_whitespace (normalize_whitespace s) = normalize_whitespace s := by
  have hrn : ('\r' : Char) ≠ '\n' := by decide
  have hrs : ('\r' : Char) ≠ ' ' := by decide
  have hns : ('\n' : Char) ≠ ' ' := by decide
  set A := crToLf (subCRLF s) with hA
  set B := collapseGo '\n' false A with hB
  set C := collapseGo ' ' false B with hC
  have hcrA : '\r' ∉ A := crToLf_no_cr (subCRLF s)
  have hcrB : '\r' ∉ B := by
    intro hm
    rcases mem_collapseGo A false hm with h | h
    · exact hrn h
    · exact hcrA h
  have hcrC : '\r' ∉ C := by
    intro hm
    rcases mem_collapseGo B false hm with h | h
    · exact hrs h
    · exact hcrB h
  have hcrY : '\r' ∉ normalize_whitespace s := by
    intro hm
    exact hcrC (mem_pyStrip hm)
  have hnlB : noRun '\n' B := (collapseGo_noRun '\n' A false).1
  have hnlC : noRun '\n' C := (collapseGo_noRun_other hns B false hnlB).1
  have hnlY : noRun '\n' (normalize_whitespace s) := noRun_pyStrip hnlC
  have hspC : noRun ' ' C := (collapseGo_noRun ' ' B false).1
  have hspY : noRun ' ' (normalize_whitespace s) := noRun_pyStrip hspC
  conv_lhs => rw [normalize_whitespace]
  rw [subCRLF_eq_self _ hcrY, crToLf_eq_self _ hcrY]
  show pyStrip (collapseGo ' ' false (collapseGo '\n' false (normalize_whitespace s)))
      = normalize_whitespace s
  rw [collapseGo_eq_self '\n' _ false hnlY (fun h => Bool.noConfusion h)]
  rw [collapseGo_eq_self ' ' _ false hspY (fun h => Bool.noConfusion h)]
  show pyStrip (pyStrip C) = pyStrip C
  exact pyStrip_idem C

/-! ## Lemmas: the ই-কার repositioning stage on canonical text -/

/-- Every `ি` in the string is immediately preceded by a consonant-class
codepoint (`prev` is the character before the current position). -/
def canonicalIkar : Option Char → Str → Bool
  | _, [] => true
  | prev, a :: rest => (a != 'ি' || prevIsCons prev) && canonicalIkar (some a) rest

theorem isIkarSep_not_cons {c : Char} (h : isIkarSep c = true) : isCons c = false := by
  simp only [isIkarSep, isPySpace, Bool.or_eq_true, decide_eq_true_eq] at h
  casesm* _ ∨ _ <;> subst_vars <;> decide

theorem canonicalIkar_cons {p : Option Char} {a : Char} {rest : Str}
    (h : canonicalIkar p (a :: rest) = true) :
    (a = 'ি' → prevIsCons p = true) ∧ canonicalIkar (some a) rest = true := by
  rw [canonicalIkar, Bool.and_eq_true] at h
  refine ⟨fun ha => ?_, h.2⟩
  have h1 := h.1
  rw [Bool.or_eq_true] at h1
  rcases h1 with h1 | h1
  · exact absurd ha (by simpa using h1)
  · exact h1

theorem fixIkar1_canonical : ∀ (atStart : Bool) (l : Str) (p : Option Char),
    canonicalIkar p l = true → (atStart = true → prevIsCons p = false) →
    fixIkar1 atStart l = l := by
  intro atStart l
  induction atStart, l using fixIkar1.induct with
  | case1 atStart =>
    intro p _ _
    rfl
  | case2 atStart a =>
    intro p _ _
    rfl
  | case3 atStart b rest hcond ih =>
    intro p hc hs
    obtain ⟨h1, _⟩ := canonicalIkar_cons hc
    rw [Bool.and_eq_true] at hcond
    rw [hs hcond.1] at h1
    exact absurd (h1 rfl) (by simp)
  | case4 atStart b rest hcond ih =>
    intro p hc _
    obtain ⟨_, h2⟩ := canonicalIkar_cons hc
    have hrec := ih (some 'ি') h2 (fun h => Bool.noConfusion h)
    rcases rest with _ | ⟨c, rest₂⟩
    · rw [fixIkar1.eq_4, if_pos rfl, if_neg hcond, hrec]
    · rw [fixIkar1.eq_3, if_pos rfl, if_neg hcond, hrec]
  | case5 atStart a b hne c tail hcond ih =>
    intro p hc _
    obtain ⟨_, h2⟩ := canonicalIkar_cons hc
    obtain ⟨h3, _⟩ := canonicalIkar_cons h2
    rw [Bool.and_eq_true, Bool.and_eq_true] at hcond
    obtain ⟨⟨hsep, hb⟩, _⟩ := hcond
    have hbe : b = 'ি' := by simpa using hb
    have := h3 hbe
    rw [show prevIsCons (some a) = isCons a from rfl, isIkarSep_not_cons hsep] at this
    exact Bool.noConfusion this
  | case6 atStart a b hne hcond =>
    intro p _ _
    exact absurd hcond (by simp)
  | case7 atStart a b rest hne hcond ih =>
    intro p hc _
    obtain ⟨_, h2⟩ := canonicalIkar_cons hc
    have hrec := ih (some a) h2 (fun h => Bool.noConfusion h)
    rcases rest with _ | ⟨c, rest₂⟩
    · rw [fixIkar1.eq_4, if_neg hne, if_neg (by simp), hrec]
    · rw [fixIkar1.eq_3, if_neg hne, if_neg hcond, hrec]

theorem fixIkar2_canonical : ∀ (p : Option Char) (l : Str),
    canonicalIkar p l = true → fixIkar2 p l = l := by
  intro p l
  induction p, l using fixIkar2.induct with
  | case1 p a b rest hcond ih =>
    intro hc
    obtain ⟨h1, _⟩ := canonicalIkar_cons hc
    rw [Bool.and_eq_true, Bool.and_eq_true] at hcond
    obtain ⟨⟨ha, hp⟩, _⟩ := hcond
    have := h1 (by simpa using ha)
    rw [this] at hp
    exact absurd hp (by simp)
  | case2 p a b rest hcond ih =>
    intro hc
    obtain ⟨_, h2⟩ := canonicalIkar_cons hc
    rw [fixIkar2.eq_1, if_neg hcond, ih h2]
  | case3 p a =>
    intro _
    rfl
  | case4 p =>
    intro _
    rfl

theorem isCons_ne_ikar {b : Char} (h : isCons b = true) : b ≠ 'ি' := by
  intro hb
  subst hb
  exact absurd h (by decide)

theorem fixIkar_auto_moves {b : Char} (rest : Str) (h : isCons b = true) :
    ∃ t, fix_ikar_position_auto ('ি' :: b :: rest) = b :: 'ি' :: t := by
  rw [fix_ikar_position_auto, if_neg (by simp)]
  have h1 : fixIkar1 true ('ি' :: b :: rest) = b :: 'ি' :: fixIkar1 false rest := by
    rcases rest with _ | ⟨c, rest₂⟩
    · rw [fixIkar1.eq_4, if_pos rfl, if_pos (by simp [h])]
    · rw [fixIkar1.eq_3, if_pos rfl, if_pos (by simp [h])]
  rw [h1]
  have hikar : isCons 'ি' = false := by decide
  have hb' : ¬(b = 'ি' && !prevIsCons none && isCons 'ি') = true := by
    simp [hikar]
  rw [fixIkar2.eq_1, if_neg hb']
  rcases hT : fixIkar1 false rest with _ | ⟨c, T₂⟩
  · exact ⟨[], by rw [fixIkar2.eq_2]⟩
  · refine ⟨fixIkar2 (some 'ি') (c :: T₂), ?_⟩
    rw [fixIkar2.eq_1, if_neg (by simp [prevIsCons, h])]

/-! ## Claim theorems -/

theorem processGroup_eq (t : Str) (window : List Str) (page : Nat) :
    processGroup t window page = emitRecords (extract_names_v2 t)
      (collectWindow window).voterIds (collectWindow window).fathers
      (collectWindow window).mothers (collectWindow window).dobProfs
      (collectWindow window).addresses page := rfl

/-- C1: when the segmenter emits records for an anchor group, it emits
exactly N PersonRecords, where N is the maximum list length among the
extracted name list and every captured category list for that group;
record i takes element i of each category's list when that list has an
element at index i and the empty string otherwise, and every emitted
record's Page equals the anchor line's page. -/
theorem c1_emit_positional (anchor : Str) (window : List Str) (page i : Nat)
    (h : i < (processGroup anchor window page).length) :
    (processGroup anchor window page).length =
      max (max (max (max (max (extract_names_v2 anchor).length
          (collectWindow window).voterIds.length)
          (collectWindow window).fathers.length)
          (collectWindow window).mothers.length)
          (collectWindow window).dobProfs.length)
          (collectWindow window).addresses.length ∧
    ((processGroup anchor window page).getD i default).Name
        = (extract_names_v2 anchor).getD i [] ∧
    ((processGroup anchor window page).getD i default).NID
        = (collectWindow window).voterIds.getD i [] ∧
    ((processGroup anchor window page).getD i default).Father
        = (collectWindow window).fathers.getD i [] ∧
    ((processGroup anchor window page).getD i default).Mother
        = (collectWindow window).mothers.getD i [] ∧
    ((processGroup anchor window page).getD i default).DOB
        = ((collectWindow window).dobProfs.getD i ([], [])).1 ∧
    ((processGroup anchor window page).getD i default).Profession
        = ((collectWindow window).dobProfs.getD i ([], [])).2 ∧
    ((processGroup anchor window page).getD i default).Address
        = (collectWindow window).addresses.getD i [] ∧
    ((processGroup anchor window page).getD i default).Page = page := by
  simp only [processGroup_eq] at h ⊢
  rw [emitRecords_getD _ _ _ _ _ _ _ _ h]
  exact ⟨emitRecords_length _ _ _ _ _ _ _, rfl, rfl, rfl, rfl, rfl, rfl, rfl, rfl⟩

/-- C1 witness: the §8 segmentation scenario (two names, two ids, two
fathers), instantiated at record index 1. -/
theorem c1_witness :
    ((processGroup (S "১. ফাতেমা দিনার ২. শাহ নাজ")
        [S "ভোটার নং: ১১ ভোটার নং: ২২", S "পিতা: করিম পিতা: রহিম"] 1).getD 1
          default).Name
      = (extract_names_v2 (S "১. ফাতেমা দিনার ২. শাহ নাজ")).getD 1 [] ∧
    ((processGroup (S "১. ফাতেমা দিনার ২. শাহ নাজ")
        [S "ভোটার নং: ১১ ভোটার নং: ২২", S "পিতা: করিম পিতা: রহিম"] 1).getD 1
          default).Page = 1 :=
  ⟨(c1_emit_positional _ _ 1 1 (by decide)).2.1,
   (c1_emit_positional _ _ 1 1 (by decide)).2.2.2.2.2.2.2.2⟩

/-- C2 counterexample: the second line is itself an anchor line inside
the first anchor's lookahead window, yet its voter-number value `১২৩`
is captured into the first group's record — the window did not close
early and the anchor line did contribute a field value. -/
theorem c2_counterexample :
    isAnchor (pyStrip (S "২. কেউ ভোটার নং: ১২৩")) = true ∧
    extract_sequential_data (pyStrip (S "২. কেউ ভোটার নং: ১২৩")) (S "ভোটার নং:")
      = [S "১২৩"] ∧
    structure_voter_data [(1, S "১. নাম"), (1, S "২. কেউ ভোটার নং: ১২৩")]
      = [{ Name := S "নাম", NID := S "১২৩", Father := [], Mother := [], DOB := [],
           Profession := [], Address := [], Page := 1 }] := by
  exact ⟨by decide, by decide, by decide⟩

/-- C2 (amended): the lookahead window does not close early at a new
anchor line: the window is always the next five rows, so an anchor line
inside it is examined for the current group (it heads the current
group's window) and can contribute field values; the new anchor line
still starts its own group, because the scan advances one row at a
time. -/
theorem c2_amended_no_early_close (p : Nat) (ta tb : Str) (rest : List (Nat × Str))
    (ha : isAnchor (pyStrip ta) = true) (hha : isHeaderV2 (pyStrip ta) = false)
    (hb : isAnchor (pyStrip tb) = true) (hhb : isHeaderV2 (pyStrip tb) = false) :
    structure_voter_data ((p, ta) :: (p, tb) :: rest)
      = processGroup (pyStrip ta)
          (pyStrip tb :: (rest.take 4).map fun r => pyStrip r.2) p
        ++ (processGroup (pyStrip tb) ((rest.take 5).map fun r => pyStrip r.2) p
            ++ structure_voter_data rest) := by
  rw [structure_voter_data]
  rw [if_neg (by simp [hha]), if_pos (by simp [ha])]
  rw [structure_voter_data]
  rw [if_neg (by simp [hhb]), if_pos (by simp [hb])]
  simp [List.take_succ_cons]

/-- C2 witness: the amended theorem applied to the counterexample input. -/
theorem c2_witness :
    structure_voter_data [(1, S "১. নাম"), (1, S "২. কেউ ভোটার নং: ১২৩")]
      = processGroup (pyStrip (S "১. নাম")) [pyStrip (S "২. কেউ ভোটার নং: ১২৩")] 1
        ++ (processGroup (pyStrip (S "২. কেউ ভোটার নং: ১২৩")) [] 1
            ++ structure_voter_data []) :=
  c2_amended_no_early_close 1 (S "১. নাম") (S "২. কেউ ভোটার নং: ১২৩") []
    (by decide) (by decide) (by decide) (by decide)

/-- C3 counterexample: when the voter-id list is longer than the name
list, the segmenter emits a record with an empty Name — the claimed
invariant fails. -/
theorem c3_counterexample :
    (structure_voter_data
        [(1, S "১. নাম"), (1, S "ভোটার নং: ১১ ভোটার নং: ২২")]).length = 2 ∧
    ((structure_voter_data
        [(1, S "১. নাম"), (1, S "ভোটার নং: ১১ ভোটার নং: ২২")]).getD 1 default).Name
      = [] ∧
    ((structure_voter_data
        [(1, S "১. নাম"), (1, S "ভোটার নং: ১১ ভোটার নং: ২২")]).getD 1 default).NID
      = S "২২" := by
  exact ⟨by decide, by decide, by decide⟩

/-- C3 (amended): an emitted record's Name is non-empty exactly when its
index is below the length of the extracted name list (every extracted
name is non-empty); records padded out to a longer category list have
empty Names. -/
theorem c3_amended_name_nonempty_iff (anchor : Str) (window : List Str)
    (page i : Nat) (h : i < (processGroup anchor window page).length) :
    ((processGroup anchor window page).getD i default).Name ≠ [] ↔
      i < (extract_names_v2 anchor).length := by
  simp only [processGroup_eq] at h ⊢
  rw [emitRecords_getD _ _ _ _ _ _ _ _ h]
  constructor
  · intro hne
    by_contra hge
    push_neg at hge
    rw [List.getD_eq_default _ _ hge] at hne
    exact hne rfl
  · intro hlt
    have hmem : (extract_names_v2 anchor).getD i [] ∈ extract_names_v2 anchor := by
      rw [List.getD_eq_getElem _ _ hlt]
      exact List.getElem_mem _
    exact extract_names_v2_ne_nil hmem

/-- C3 witness: at index 0 of the counterexample group the Name is
non-empty, matching the single extracted name. -/
theorem c3_witness :
    ((processGroup (S "১. নাম") [S "ভোটার নং: ১১ ভোটার নং: ২২"] 1).getD 0
      default).Name ≠ [] :=
  (c3_amended_name_nonempty_iff (S "১. নাম") [S "ভোটার নং: ১১ ভোটার নং: ২২"] 1 0
    (by decide)).mpr (by decide)

/-- C4 counterexample: the doubled-consonant collapse stage is not
idempotent — a triple consonant collapses to a double on the first pass
and to a single on the second. -/
theorem c4_counterexample :
    fix_double_characters (fix_double_characters (S "ককক"))
      ≠ fix_double_characters (S "ককক") := by decide

/-- C4 (amended): idempotence fails for the normalization stages in
general (the doubled-consonant collapse stage maps ককক to কক and a
second application gives ক); the whitespace-normalization stage is
idempotent: applying it twice equals applying it once, for every
string. -/
theorem c4_whitespace_stage_idempotent (x : Str) :
    normalize_whitespace (normalize_whitespace x) = normalize_whitespace x :=
  normalize_whitespace_idem x

/-- C5 counterexample: for the input কককককো, which contains the
corrupted substring ককো, the double-character stage's output still
contains ককো — the literal transformation is not performed for every
input containing the corrupted substring. -/
theorem c5_counterexample :
    fix_double_characters (S "কককককো") = S "ককো" ∧
    occursIn (S "ককো") (fix_double_characters (S "কককককো")) = true := by
  exact ⟨by decide, by decide⟩

/-- C5 (amended): the four corruption-corpus transformations hold
exactly on the literal corrupted strings themselves: িনম্মী becomes
নিম্মী under the encoding ই-কার fixer, মমোহাম্মদ becomes মোহাম্মদ and
ককো becomes কো under the double-character fixer, and ভাটার becomes
ভোটার under the character-correction table. -/
theorem c5_literal_transformations :
    fix_ikar_position_enc (some (S "িনম্মী")) = some (S "নিম্মী") ∧
    fix_double_characters (S "মমোহাম্মদ") = S "মোহাম্মদ" ∧
    fix_double_characters (S "ককো") = S "কো" ∧
    fix_bengali_characters_all (S "ভাটার") = S "ভোটার" := by
  exact ⟨by decide, by decide, by decide, by decide⟩

/-- The spec's DOB/profession scenario line, with the corrupted
date-marker spelling জন্মতািরখ: and corrupted profession words. -/
def dob_test_line : Str :=
  S "জন্মতািরখ: ১২/১২/১৯৭৯ পেশা: গৃিহনী জন্মতািরখ: ৩০/০৯/১৯৭৫ পেশা: গৃিহনী জন্মতািরখ: ১০/০৪/১৯৭৩ পেশা: সরকারী চাকুরী"

/-- C6 counterexample: on the spec's scenario line with the corrupted
date-marker spelling normalized, the v1 `extract_dob_profession` regex
returns no pairs at all (its profession group cannot match the corrupted
words গৃিহনী and সরকারী), not the claimed three. -/
theorem c6_counterexample :
    extract_dob_profession
        (replaceAll (S "জন্মতািরখ:") (S "জন্মতারিখ:") dob_test_line) = [] := by
  decide

/-- C6 (amended): on the spec's scenario line the v2 segmenter's inline
DOB/profession extraction (which normalizes the corrupted marker
spellings itself) returns exactly three (date, profession) pairs in
line order; the v1 `extract_dob_profession` returns none. -/
theorem c6_v2_three_pairs :
    extract_dob_profession_v2 dob_test_line
      = [(S "১২/১২/১৯৭৯", S "গৃিহনী"), (S "৩০/০৯/১৯৭৫", S "গৃিহনী"),
         (S "১০/০৪/১৯৭৩", S "সরকারী")] := by
  decide

/-- C7 counterexample: the encoding ই-কার fixer returns `None` for
absent input, not the empty string. -/
theorem c7_counterexample :
    fix_ikar_position_enc none = none ∧ (none : Option Str) ≠ some [] :=
  ⟨rfl, by simp⟩

/-- C7 (amended): the normalization entry points are total and never
raise; `clean_text` returns the empty string for absent or empty input,
while `fix_ikar_position_enc` returns its input unchanged on absent or
empty input (`None` for `None`, empty for empty). -/
theorem c7_guard_behavior :
    clean_text none = [] ∧ clean_text (some []) = [] ∧
    fix_ikar_position_enc none = none ∧
    fix_ikar_position_enc (some []) = some [] :=
  ⟨rfl, rfl, rfl, rfl⟩

/-- C8: the automatic ই-কার repositioning stage moves a ি to follow the
next consonant only when the ি is not already preceded by a
consonant-class codepoint: a string in which every ি is preceded by a
consonant is left unchanged, and a ি not preceded by a consonant and
followed by a consonant is moved after it. -/
theorem c8_reposition_only_uncanonical :
    (∀ s, canonicalIkar none s = true → fix_ikar_position_auto s = s) ∧
    (∀ (b : Char) (rest : Str), isCons b = true →
      ∃ t, fix_ikar_position_auto ('ি' :: b :: rest) = b :: 'ি' :: t) := by
  constructor
  · intro s hc
    rw [fix_ikar_position_auto]
    split_ifs with h
    · rfl
    · rw [fixIkar1_canonical true s none hc (fun _ => rfl),
        fixIkar2_canonical none s hc]
  · exact fun b rest h => fixIkar_auto_moves rest h

/-- C8 witness: a canonical string is unchanged, and a misplaced ি at
the start is moved after the following consonant. -/
theorem c8_witness :
    fix_ikar_position_auto (S "কি") = S "কি" ∧
    ∃ t, fix_ikar_position_auto (S "িক") = 'ক' :: 'ি' :: t :=
  ⟨c8_reposition_only_uncanonical.1 (S "কি") (by decide),
   c8_reposition_only_uncanonical.2 'ক' [] (by decide)⟩

/-- C9: field-value extraction is total (the embeddings are total Lean
functions), and when the category's marker keyword is absent from the
line it returns an empty list — both for the v2 `extract_sequential_data`
with any non-empty keyword and for the v1 `extract_fathers`. -/
theorem c9_absent_marker (text kw line : Str) (hk : kw ≠ [])
    (h1 : occursIn kw text = false) (h2 : occursIn (S "পিতা:") line = false) :
    extract_sequential_data text kw = [] ∧ extract_fathers line = [] := by
  constructor
  · rw [extract_sequential_data, splitOn_no_occurrence hk h1]
    rfl
  · rw [extract_fathers, splitKwWs_no_occurrence (by decide) h2]
    rfl

/-- C9 witness: a line without the markers yields empty lists. -/
theorem c9_witness :
    extract_sequential_data (S "নাম") (S "ভোটার নং:") = [] ∧
    extract_fathers (S "নাম") = [] :=
  c9_absent_marker (S "নাম") (S "ভোটার নং:") (S "নাম")
    (by decide) (by decide) (by decide)

/-- C10: every voter ID returned by `extract_voter_ids` is a non-empty
string consisting solely of Bengali digit codepoints ০–৯; non-digit text
after the marker is never included. -/
theorem c10_voter_ids_digits (line v : Str) (hv : v ∈ extract_voter_ids line) :
    v ≠ [] ∧ ∀ c ∈ v, isBDigit c = true :=
  voterScanF_shape line.length line v hv

/-- C10 witness: the id extracted from a concrete marker line is a
non-empty all-digit string. -/
theorem c10_witness :
    (S "১২৩") ∈ extract_voter_ids (S "ভোটার নং: ১২৩ পিতা: রহিম") ∧
    (S "১২৩") ≠ [] ∧ ∀ c ∈ (S "১২৩"), isBDigit c = true :=
  ⟨by decide, c10_voter_ids_digits (S "ভোটার নং: ১২৩ পিতা: রহিম") (S "১২৩") (by decide)⟩
